import Mathlib

/-!
# Verification of the TWpodcast Resilient Generation Orchestrator

Shallow embedding of the core logic of `src/podcast_pipeline/ollama_client.py`
(`OllamaClient.__init__`, `OllamaClient._generate_local`, `OllamaClient.generate`)
and `src/podcast_pipeline/summarizer.py` (`Summarizer.polish_transcript_chunked`),
together with theorems settling the specification claims about them.

Strings are modelled as `List Char` (`Str`); Python integers and `time.time()`
values are modelled as `Int` (Python ints are unbounded; the float clock is
abstracted to an integer-valued clock, which is faithful for every ordering
and arithmetic fact used here).  Network I/O is abstracted by a deterministic
environment (`Env`) that supplies, per call, the connectivity-probe results and
the HTTP outcome of each generation attempt, indexed by a global attempt
counter; the embedded `generate` threads explicit state (cooldown map, error
list, event trace) where the Python method mutates `self` and local variables.
-/

/-- Python strings, modelled as lists of characters. -/
abbrev Str := List Char

/-! ## Chunking Engine

`Summarizer.polish_transcript_chunked` (summarizer.py lines 222-230) computes
the chunk list with:

```python
chunks = []
start = 0
while start < len(transcript):
    end = min(start + chunk_size, len(transcript))
    chunks.append(transcript[start:end])
    start = end - overlap  # 重疊
    if start >= len(transcript) - overlap:
        break
```

We embed the loop as a fuel-indexed recursion `splitGo` producing the list of
`(start, end)` spans (the chunk texts are recovered from the spans by
`extractSpan`, matching `transcript[start:end]`).  The fuel makes the partial
Python loop total: `none` means the fuel ran out, and the loop terminates on an
input exactly when some fuel yields `some`.  All loop arithmetic is on `Int`,
as in Python (`start` may in principle go negative when `overlap` is large). -/

def splitGo (csize ov n : Int) : Nat → Int → Option (List (Int × Int))
  | 0, _ => none
  | fuel + 1, start =>
    if start < n then
      let e := min (start + csize) n
      let start' := e - ov
      if n - ov ≤ start' then
        some [(start, e)]
      else
        (splitGo csize ov n fuel start').map (fun rest => (start, e) :: rest)
    else
      some []

/-- The chunking loop terminates on document length `n` (with parameters
`csize`, `ov`) iff some amount of fuel suffices. -/
def SplitTerminates (csize ov n : Int) : Prop :=
  ∃ fuel spans, splitGo csize ov n fuel 0 = some spans

/-- `transcript[start:end]` for the in-range spans produced by the loop. -/
def extractSpan (doc : Str) (p : Int × Int) : Str :=
  (doc.drop p.1.toNat).take (p.2 - p.1).toNat

/-! ### Structural invariant of the span loop -/

/-- Relation holding between consecutive spans emitted by the loop: the next
span starts exactly `ov` before the current end, the current (non-final) span
has length exactly `csize`, and the next span reaches strictly further. -/
def SpanStep (csize ov : Int) (a b : Int × Int) : Prop :=
  b.1 = a.2 - ov ∧ a.2 - a.1 = csize ∧ a.2 < b.2

/-- Pointwise facts about every span emitted by the loop. -/
def SpanOK (csize ov n : Int) (p : Int × Int) : Prop :=
  0 ≤ p.1 ∧ p.1 < p.2 ∧ p.2 - p.1 ≤ csize ∧ ov < p.2 - p.1 ∧ p.2 ≤ n

theorem splitGo_spec (csize ov n : Int) (hov : 0 ≤ ov) (hlt : ov < csize) :
    ∀ (fuel : Nat) (start : Int) (r : List (Int × Int)),
      0 ≤ start → start + ov < n →
      splitGo csize ov n fuel start = some r →
      ∃ hd tl, r = hd :: tl ∧ hd.1 = start ∧
        (∀ p ∈ r, SpanOK csize ov n p) ∧
        (∃ q, r.getLast? = some q ∧ q.2 = n) ∧
        List.Chain' (SpanStep csize ov) r := by
  intro fuel
  induction fuel with
  | zero => intro start r _ _ h; simp [splitGo] at h
  | succ k ih =>
    intro start r hs0 hsn h
    have hstart_lt : start < n := by
      have : start + 0 ≤ start + ov := by omega
      omega
    rw [splitGo] at h
    rw [if_pos hstart_lt] at h
    by_cases hbrk : n - ov ≤ min (start + csize) n - ov
    · rw [if_pos hbrk] at h
      have he : min (start + csize) n = n := by
        have h1 : min (start + csize) n ≤ n := min_le_right _ _
        omega
      injection h with h
      subst h
      refine ⟨(start, min (start + csize) n), [], rfl, rfl, ?_, ?_, ?_⟩
      · intro p hp
        simp only [List.mem_singleton] at hp
        subst hp
        have h2 : min (start + csize) n ≤ start + csize := min_le_left _ _
        constructor
        · exact hs0
        refine ⟨?_, ?_, ?_, ?_⟩ <;> simp only [he] <;> omega
      · exact ⟨(start, min (start + csize) n), rfl, he⟩
      · exact List.chain'_singleton _
    · rw [if_neg hbrk] at h
      -- the loop continues: the current end is strictly below n, so it equals
      -- start + csize, and the recursive call starts at start + csize - ov
      have hmin_le : min (start + csize) n ≤ n := min_le_right _ _
      have he : min (start + csize) n = start + csize := by
        rcases min_cases (start + csize) n with ⟨h1, _⟩ | ⟨h1, h2⟩
        · exact h1
        · omega
      rw [he] at h
      cases hrec : splitGo csize ov n k (start + csize - ov) with
      | none => rw [hrec] at h; simp at h
      | some rest =>
        rw [hrec] at h
        simp only [Option.map_some'] at h
        injection h with h
        subst h
        rw [he] at hbrk
        have hrs0 : 0 ≤ start + csize - ov := by omega
        have hrsn : (start + csize - ov) + ov < n := by omega
        obtain ⟨hd', tl', hrest, hhd1, hptw, ⟨q, hq, hqn⟩, hchain⟩ :=
          ih (start + csize - ov) rest hrs0 hrsn hrec
        refine ⟨(start, start + csize), rest, rfl, rfl, ?_, ?_, ?_⟩
        · intro p hp
          rcases List.mem_cons.mp hp with hp | hp
          · subst hp
            refine ⟨hs0, by omega, by omega, by omega, by omega⟩
          · exact hptw p hp
        · refine ⟨q, ?_, hqn⟩
          rw [hrest] at hq ⊢
          simpa using hq
        · rw [hrest] at hchain ⊢
          refine List.Chain'.cons ?_ hchain
          refine ⟨by omega, by omega, ?_⟩
          -- hd' reaches strictly beyond start + csize since its length > ov
          have := hptw hd' (by rw [hrest]; exact List.mem_cons_self _ _)
          obtain ⟨_, _, _, hlen, _⟩ := this
          have : hd'.1 = start + csize - ov := hhd1
          omega

/-- Pointwise coverage from a gap-free chain: if consecutive spans never leave
a gap, the head starts at or before `j` and the last ends after `j`, then some
span contains `j`. -/
theorem chain_cover :
    ∀ (r : List (Int × Int)) (j : Int),
      List.Chain' (fun a b : Int × Int => b.1 ≤ a.2) r →
      ∀ hd, r.head? = some hd → hd.1 ≤ j →
      ∀ q, r.getLast? = some q → j < q.2 →
      ∃ p ∈ r, p.1 ≤ j ∧ j < p.2 := by
  intro r
  induction r with
  | nil => intro j _ hd h; simp at h
  | cons a t ih =>
    intro j hchain hd hhd hj q hq hjq
    simp only [List.head?] at hhd
    injection hhd with hhd
    subst hhd
    cases t with
    | nil =>
      simp only [List.getLast?] at hq
      injection hq with hq
      subst hq
      exact ⟨a, List.mem_cons_self _ _, hj, hjq⟩
    | cons b t' =>
      by_cases hja : j < a.2
      · exact ⟨a, List.mem_cons_self _ _, hj, hja⟩
      · have hrel : b.1 ≤ a.2 := (List.chain'_cons.mp hchain).1
        have hchain' : List.Chain' (fun a b : Int × Int => b.1 ≤ a.2) (b :: t') :=
          (List.chain'_cons.mp hchain).2
        have hq' : (b :: t').getLast? = some q := by
          rw [← hq]; symm; exact List.getLast?_cons_cons
        obtain ⟨p, hp, h1, h2⟩ := ih j hchain' b rfl (by omega) q hq' hjq
        exact ⟨p, List.mem_cons_of_mem _ hp, h1, h2⟩

/-- **C2** — For every document longer than `chunk_size` (with the engine's
parameters satisfying `0 ≤ overlap < chunk_size`), any completed run of the
chunking loop yields spans covering `[0, n)` with no gaps, strictly increasing
start offsets, no span longer than `chunk_size`, and consecutive spans
overlapping by exactly `overlap`; and with `chunk_size = 6000`,
`overlap = 500` and document length `13000` the spans are exactly
`[0,6000), [5500,11500), [11000,13000)`. -/
theorem split_spans_cover_overlap :
    (∀ (csize ov n : Int) (fuel : Nat) (spans : List (Int × Int)),
      0 ≤ ov → ov < csize → csize < n →
      splitGo csize ov n fuel 0 = some spans →
      (∀ j : Int, 0 ≤ j → j < n → ∃ p ∈ spans, p.1 ≤ j ∧ j < p.2) ∧
      List.Chain' (fun a b : Int × Int => a.1 < b.1) spans ∧
      (∀ p ∈ spans, p.2 - p.1 ≤ csize) ∧
      List.Chain' (fun a b : Int × Int => a.2 - b.1 = ov ∧ a.2 ≤ b.2) spans)
    ∧ splitGo 6000 500 13000 4 0 =
        some [(0, 6000), (5500, 11500), (11000, 13000)] := by
  constructor
  · intro csize ov n fuel spans hov hlt hn hrun
    obtain ⟨hd, tl, hspans, hhd1, hptw, ⟨q, hq, hqn⟩, hchain⟩ :=
      splitGo_spec csize ov n hov hlt fuel 0 spans le_rfl (by omega) hrun
    refine ⟨?_, ?_, ?_, ?_⟩
    · intro j hj0 hjn
      have hgap : List.Chain' (fun a b : Int × Int => b.1 ≤ a.2) spans :=
        hchain.imp (fun a b h => by obtain ⟨h1, _, _⟩ := h; omega)
      refine chain_cover spans j hgap hd ?_ ?_ q hq (by omega)
      · rw [hspans]; rfl
      · omega
    · exact hchain.imp (fun a b h => by obtain ⟨h1, h2, _⟩ := h; omega)
    · intro p hp; exact (hptw p hp).2.2.1
    · exact hchain.imp (fun a b h => by obtain ⟨h1, _, h3⟩ := h; exact ⟨by omega, by omega⟩)
  · decide

/-- Witness for `split_spans_cover_overlap`: in the concrete
`6000/500/13000` scenario, position `12999` is covered by a span. -/
theorem split_spans_cover_overlap_witness :
    ∃ p ∈ [((0 : Int), (6000 : Int)), (5500, 11500), (11000, 13000)],
      p.1 ≤ 12999 ∧ (12999 : Int) < p.2 :=
  ((split_spans_cover_overlap.1 6000 500 13000 4 _ (by decide) (by decide)
      (by decide) split_spans_cover_overlap.2).1 12999 (by decide) (by decide))

/-- **C3 counterexample** — the empty document has length `0 ≤ chunk_size`,
yet the chunking loop returns zero spans, not one: the `while start < len`
guard fails immediately. -/
theorem split_empty_doc_no_span :
    splitGo 6000 500 0 1 0 = some [] ∧ ([] : List (Int × Int)).length ≠ 1 := by
  decide

/-- **C3 (amended)** — for every nonempty document of length at most
`chunk_size`, the chunking loop returns exactly one span `[0, n)`, covering
the whole document (the empty document instead yields zero spans). -/
theorem split_short_doc_single_span (csize ov n : Int) (fuel : Nat)
    (h0 : 0 < n) (hn : n ≤ csize) :
    splitGo csize ov n (fuel + 1) 0 = some [(0, n)] := by
  rw [splitGo]
  rw [if_pos h0]
  have he : min (0 + csize) n = n := by omega
  rw [he]
  rw [if_pos (by omega)]

/-- Witness for `split_short_doc_single_span` at `n = 500 ≤ 6000`. -/
theorem split_short_doc_single_span_witness :
    (0 : Int) < 500 ∧ (500 : Int) ≤ 6000 ∧
      splitGo 6000 500 500 1 0 = some [(0, 500)] :=
  ⟨by decide, by decide, split_short_doc_single_span 6000 500 500 0 (by decide) (by decide)⟩

/-- With `overlap = chunk_size` (here both `1`) and a document of length `2`,
the loop recomputes `start = 0` forever: no fuel completes it. -/
theorem splitGo_stuck : ∀ fuel : Nat, splitGo 1 1 2 fuel 0 = none := by
  intro fuel
  induction fuel with
  | zero => rfl
  | succ k ih =>
    rw [splitGo]
    rw [if_pos (by decide)]
    have he : min ((0 : Int) + 1) 2 = 1 := by decide
    rw [he]
    rw [if_neg (by decide)]
    rw [show (1 : Int) - 1 = 0 by decide, ih]
    rfl

/-- **C9 counterexample** — with `chunk_size = 1 > 0`, `overlap = 1 ≥ 0` and a
document of length `2`, the chunking loop never terminates. -/
theorem split_nonterminating_counterexample : ¬ SplitTerminates 1 1 2 := by
  rintro ⟨fuel, spans, h⟩
  rw [splitGo_stuck fuel] at h
  exact Option.noConfusion h

/-- Fuel `(n - start).toNat + 1` suffices for the loop when
`0 ≤ overlap < chunk_size`: each iteration either stops or strictly advances
`start`. -/
theorem splitGo_fuel_sufficient (csize ov n : Int) (hov : 0 ≤ ov) (hlt : ov < csize) :
    ∀ (k : Nat) (start : Int), (n - start).toNat ≤ k →
      ∃ spans, splitGo csize ov n (k + 1) start = some spans := by
  intro k
  induction k with
  | zero =>
    intro start hk
    have : ¬ start < n := by omega
    exact ⟨[], by rw [splitGo, if_neg this]⟩
  | succ k ih =>
    intro start hk
    by_cases hlt' : start < n
    · by_cases hbrk : n - ov ≤ min (start + csize) n - ov
      · exact ⟨[(start, min (start + csize) n)], by rw [splitGo, if_pos hlt', if_pos hbrk]⟩
      · have he : min (start + csize) n = start + csize := by omega
        have hadv : (n - (start + csize - ov)).toNat ≤ k := by omega
        obtain ⟨rest, hrest⟩ := ih (start + csize - ov) hadv
        refine ⟨(start, start + csize) :: rest, ?_⟩
        rw [splitGo, if_pos hlt', if_neg hbrk, he]
        rw [show start + csize - ov = start + csize - ov from rfl, hrest]
        rfl
    · exact ⟨[], by rw [splitGo, if_neg hlt']⟩

/-- **C9 (amended)** — for every document and parameters with
`0 ≤ overlap < chunk_size`, the chunking loop terminates (stopping once a span
reaches the document end); when `overlap ≥ chunk_size` and the document is
longer than `chunk_size` it does not (see
`split_nonterminating_counterexample`). -/
theorem split_terminates (csize ov n : Int) (hov : 0 ≤ ov) (hlt : ov < csize) :
    SplitTerminates csize ov n := by
  obtain ⟨spans, h⟩ := splitGo_fuel_sufficient csize ov n hov hlt (n - 0).toNat 0 le_rfl
  exact ⟨(n - 0).toNat + 1, spans, h⟩

/-- Witness for `split_terminates` at the production parameters
`chunk_size = 6000`, `overlap = 500`, document length `13000`. -/
theorem split_terminates_witness :
    (0 : Int) ≤ 500 ∧ (500 : Int) < 6000 ∧ SplitTerminates 6000 500 13000 :=
  ⟨by decide, by decide, split_terminates 6000 500 13000 (by decide) (by decide)⟩

/-! ## Generation Client and Failover Orchestrator

Embedding of `OllamaClient` (ollama_client.py).  `LLMResponse` mirrors the
Python dataclass.  The HTTP layer is abstracted by `HttpOutcome`: a served
response (status code, body text, extracted payload field, token count), a
`requests.Timeout`, or another `requests.RequestException` with its message;
`generateLocal` and `generateCloud` embed `_generate_local` / `_generate_cloud`
as the pure classification of such an outcome (`resp.ok` is
`status_code < 400` in `requests`). -/

/-- Mirror of the `LLMResponse` dataclass. -/
structure LLMResponse where
  success : Bool
  content : Option Str := none
  model : Option Str := none
  source : Option Str := none
  error : Option Str := none
  tokens_used : Option Nat := none
deriving DecidableEq

/-- Outcome of one HTTP generation request. `payload` is the extracted
content field (`data.get('response', '')` locally,
`data['choices'][0]['message']['content']` for the cloud). -/
inductive HttpOutcome where
  | response (status : Nat) (text : Str) (payload : Str) (tokens : Option Nat)
  | timeout
  | exn (msg : Str)
deriving DecidableEq

/-- Python `pat in s` (substring test). -/
def strContains : Str → Str → Bool
  | [], pat => pat.isEmpty
  | s@(_ :: rest), pat => pat.isPrefixOf s || strContains rest pat

/-- Python `str(e)` on an optional error: `None` renders as `"None"`. -/
def errToStr : Option Str → Str
  | none => "None".data
  | some e => e

/-- Python `url.split('/')[-1]`. -/
def urlTail (u : Str) : Str := (u.splitOn '/').getLastD []

/-- `'; '.join`-style separator join, matching the incremental
`merged += sep + part` accumulation. -/
def joinSep (sep : Str) : List Str → Str
  | [] => []
  | [x] => x
  | x :: xs => x ++ sep ++ joinSep sep xs

/-- Python `l[-k:]`: the last at-most-`k` elements. -/
def lastN {α : Type} (k : Nat) (l : List α) : List α := l.drop (l.length - k)

/-- `OllamaClient._generate_local` as a classification of the HTTP outcome
(lines 85-117): on `resp.ok` a success carrying `data.get('response','')`,
otherwise the error string `f"HTTP {resp.status_code}: {resp.text[:200]}"`;
timeouts and request exceptions give their fixed / carried messages. -/
def generateLocal (model : Str) (o : HttpOutcome) : LLMResponse :=
  match o with
  | .response status text payload tokens =>
    if status < 400 then
      { success := true, content := some payload, model := some model,
        source := some "local".data, tokens_used := tokens }
    else
      { success := false,
        error := some ("HTTP ".data ++ (Nat.repr status).data ++ ": ".data ++ text.take 200) }
  | .timeout => { success := false, error := some "請求超時".data }
  | .exn msg => { success := false, error := some msg }

/-- The rate-limit classifier used by `generate` (line 227):
`'429' in str(result.error)`. -/
def isRateLimitError (e : Option Str) : Bool :=
  strContains (errToStr e) "429".data

/-- The per-model cooldown dictionary `self.model_cooldown`
(`{model_name: cooldown_until_timestamp}`), as an association list. -/
def cdGet (cd : List (Str × Int)) (m : Str) : Int := (cd.lookup m).getD 0

/-- Python `dict[m] = v`: unconditional overwrite. -/
def cdSet (cd : List (Str × Int)) (m : Str) (v : Int) : List (Str × Int) :=
  (m, v) :: cd.filter (fun p => !(p.1 == m))

/-- Lines 228-229: `self.model_cooldown[try_model] = time.time() +
self.cooldown_duration`. -/
def markRateLimited (cd : List (Str × Int)) (m : Str) (now dur : Int) :
    List (Str × Int) :=
  cdSet cd m (now + dur)

/-- The client's configuration-derived fields (`OllamaClient.__init__`). -/
structure Client where
  local_primary_url : Str
  local_fallback_url : Str
  local_models : List Str
  model_cooldown : List (Str × Int)
  cooldown_duration : Int
  cloud_enabled : Bool
  cloud_url : Str
  cloud_model : Str
  cloud_api_key : Str
  priority : List Str
deriving DecidableEq

/-- `config.get('local', {})`: each recognized key may be absent. -/
structure LocalConfig where
  primary_url : Option Str := none
  fallback_url : Option Str := none
  models : Option (List Str) := none
  model : Option Str := none

/-- `config.get('cloud', {})`. -/
structure CloudConfig where
  enabled : Option Bool := none
  url : Option Str := none
  model : Option Str := none
  api_key : Option Str := none

/-- The constructor argument `config`: the `local` / `cloud` sub-dicts and the
`priority` list may each be absent. -/
structure Config where
  localCfg : Option LocalConfig := none
  cloudCfg : Option CloudConfig := none
  priority : Option (List Str) := none

/-- `OllamaClient.__init__` (lines 29-60): defaults for every absent field,
the `models` list falling back to the single `model` entry
(default `'gemma3:27b'`) when absent or empty, cooldown map empty, cooldown
duration hard-coded to two hours. -/
def mkClient (cfg : Config) : Client :=
  let lc := cfg.localCfg.getD {}
  let cc := cfg.cloudCfg.getD {}
  let models := lc.models.getD []
  { local_primary_url := lc.primary_url.getD "http://localhost:11434".data
    local_fallback_url := lc.fallback_url.getD "http://localhost:11434".data
    local_models := if models ≠ [] then models else [lc.model.getD "gemma3:27b".data]
    model_cooldown := []
    cooldown_duration := 2 * 60 * 60
    cloud_enabled := cc.enabled.getD false
    cloud_url := cc.url.getD "https://api.ollama.com/v1".data
    cloud_model := cc.model.getD "deepseek-v3.1:671b-cloud".data
    cloud_api_key := cc.api_key.getD []
    priority := cfg.priority.getD ["local".data, "cloud".data] }

/-- `OllamaClient._generate_cloud` (lines 119-160): disabled-service guard,
then classification like the local path, with the cloud-specific messages. -/
def generateCloud (c : Client) (o : HttpOutcome) : LLMResponse :=
  if c.cloud_enabled = false then
    { success := false, error := some "雲端服務未啟用".data }
  else
    match o with
    | .response status text payload tokens =>
      if status < 400 then
        { success := true, content := some payload, model := some c.cloud_model,
          source := some "cloud".data, tokens_used := tokens }
      else
        { success := false,
          error := some ("HTTP ".data ++ (Nat.repr status).data ++ ": ".data ++ text.take 200) }
    | .timeout => { success := false, error := some "雲端請求超時".data }
    | .exn msg => { success := false, error := some msg }

/-- Deterministic environment for one `generate` call: the clock value at the
initial cooldown filter (`now0`), the clock value read in the 429 handler of
the `k`-th attempt (`tick k`), connectivity-probe results, and the HTTP
outcome of the `k`-th local / cloud attempt. -/
structure Env where
  now0 : Int
  tick : Nat → Int
  testConn : Str → Bool
  localHttp : Nat → HttpOutcome
  cloudHttp : Nat → HttpOutcome

/-- One generation attempt as recorded in the run trace: where it was issued,
the global attempt index, the cooldown timestamp the tracker held for that
model at the moment of issue, and how the outcome was classified. -/
structure AttemptInfo where
  source : Str
  url : Str
  model : Str
  idx : Nat
  cdAtIssue : Int
  success : Bool
  rateLimited : Bool
deriving DecidableEq

/-- Observable events of a `generate` run, in order. -/
inductive Event where
  | probe (url : Str) (ok : Bool)
  | att (a : AttemptInfo)
deriving DecidableEq

/-- The mutable state threaded through `generate`'s loops: the shared cooldown
dict, the accumulated `errors` list, the event trace, and the attempt
counter. -/
structure St where
  cd : List (Str × Int)
  errs : List Str
  trace : List Event
  ctr : Nat
deriving DecidableEq

/-- The `for attempt in range(retry_count)` loop for one (url, model) pair
(lines 209-234): return on success; otherwise record the error
`f"[{try_model}@{url.split('/')[-1]}] {result.error}"`; on a 429-classified
error set the cooldown and break (no further retry for this model here);
otherwise sleep (irrelevant here) and retry. -/
def retryLocal (env : Env) (c : Client) (url m : Str) :
    Nat → St → St × Option LLMResponse
  | 0, s => (s, none)
  | k + 1, s =>
    let idx := s.ctr
    let res := generateLocal m (env.localHttp idx)
    let s1 : St := { s with
      trace := s.trace ++ [Event.att ⟨"local".data, url, m, idx, cdGet s.cd m,
        res.success, !res.success && isRateLimitError res.error⟩],
      ctr := idx + 1 }
    if res.success then (s1, some res)
    else
      let s2 : St := { s1 with errs := s1.errs ++
        ["[".data ++ m ++ "@".data ++ urlTail url ++ "] ".data ++ errToStr res.error] }
      if isRateLimitError res.error then
        ({ s2 with cd := markRateLimited s2.cd m (env.tick idx) c.cooldown_duration },
         none)
      else
        retryLocal env c url m k s2

/-- The `for try_model in available_models` loop (line 208). -/
def modelsLoop (env : Env) (c : Client) (url : Str) (rc : Nat) :
    List Str → St → St × Option LLMResponse
  | [], s => (s, none)
  | m :: ms, s =>
    match retryLocal env c url m rc s with
    | (s', some r) => (s', some r)
    | (s', none) => modelsLoop env c url rc ms s'

/-- The `for url in [primary, fallback]` loop (lines 201-234): probe the url;
if unreachable record `f"[local:{url}] 無法連接"` and continue, else run the
model loop. -/
def urlsLoop (env : Env) (c : Client) (avail : List Str) (rc : Nat) :
    List Str → St → St × Option LLMResponse
  | [], s => (s, none)
  | u :: us, s =>
    let ok := env.testConn u
    let s1 : St := { s with trace := s.trace ++ [Event.probe u ok] }
    if ok then
      match modelsLoop env c u rc avail s1 with
      | (s', some r) => (s', some r)
      | (s', none) => urlsLoop env c avail rc us s'
    else
      urlsLoop env c avail rc us
        { s1 with errs := s1.errs ++ ["[local:".data ++ u ++ "] 無法連接".data] }

/-- The cloud retry loop (lines 236-246), recording `f"[cloud] {result.error}"`
per failed attempt. -/
def cloudRetry (env : Env) (c : Client) : Nat → St → St × Option LLMResponse
  | 0, s => (s, none)
  | k + 1, s =>
    let idx := s.ctr
    let res := generateCloud c (env.cloudHttp idx)
    let s1 : St := { s with
      trace := s.trace ++ [Event.att ⟨"cloud".data, c.cloud_url, c.cloud_model, idx,
        cdGet s.cd c.cloud_model, res.success, false⟩],
      ctr := idx + 1 }
    if res.success then (s1, some res)
    else
      cloudRetry env c k
        { s1 with errs := s1.errs ++ ["[cloud] ".data ++ errToStr res.error] }

/-- The `for source in self.priority` loop (lines 199-246): `'local'` runs the
url loop over `[primary, fallback]`, `'cloud'` runs the cloud retries only when
enabled, anything else is skipped. -/
def sourcesLoop (env : Env) (c : Client) (avail : List Str) (rc : Nat) :
    List Str → St → St × Option LLMResponse
  | [], s => (s, none)
  | src :: rest, s =>
    if src = "local".data then
      match urlsLoop env c avail rc [c.local_primary_url, c.local_fallback_url] s with
      | (s', some r) => (s', some r)
      | (s', none) => sourcesLoop env c avail rc rest s'
    else if src = "cloud".data ∧ c.cloud_enabled = true then
      match cloudRetry env c rc s with
      | (s', some r) => (s', some r)
      | (s', none) => sourcesLoop env c avail rc rest s'
    else
      sourcesLoop env c avail rc rest s

/-- Instrumented result of a `generate` call: the returned `LLMResponse`
together with the observable run data (final and post-filter cooldown state,
the candidate set actually used, whether the all-cooling reset ran, the
accumulated errors, and the event trace). -/
structure RunResult where
  response : LLMResponse
  cooldown : List (Str × Int)
  cooldownAfterFilter : List (Str × Int)
  availableModels : List Str
  resetCount : Nat
  errors : List Str
  trace : List Event
deriving DecidableEq

/-- Line 189: `[model] if model else self.local_models`. -/
def modelsToTry (c : Client) (modelArg : Option Str) : List Str :=
  match modelArg with
  | some m => [m]
  | none => c.local_models

/-- `OllamaClient.generate` (lines 162-252): filter the candidate models by
cooldown at `current_time`; if none survive (and there are candidates), clear
the whole cooldown dict and use the unfiltered list; run the priority loop;
if nothing succeeded return the aggregated failure
`f"所有服務都無法使用：{'; '.join(errors[-5:])}"`. -/
def generateRun (c : Client) (env : Env) (modelArg : Option Str) (rc : Nat) :
    RunResult :=
  let mtt := modelsToTry c modelArg
  let avail := mtt.filter (fun m => decide (cdGet c.model_cooldown m ≤ env.now0))
  let reset : Bool := avail.isEmpty && !mtt.isEmpty
  let cd1 := if reset then [] else c.model_cooldown
  let avail1 := if reset then mtt else avail
  let s0 : St := ⟨cd1, [], [], 0⟩
  match sourcesLoop env c avail1 rc c.priority s0 with
  | (s, some r) =>
    { response := r, cooldown := s.cd, cooldownAfterFilter := cd1,
      availableModels := avail1, resetCount := if reset then 1 else 0,
      errors := s.errs, trace := s.trace }
  | (s, none) =>
    let failMsg : Str :=
      "所有服務都無法使用：".data ++ joinSep "; ".data (lastN 5 s.errs)
    { response := { success := false, error := some failMsg },
      cooldown := s.cd, cooldownAfterFilter := cd1,
      availableModels := avail1, resetCount := if reset then 1 else 0,
      errors := s.errs, trace := s.trace }

/-! ## Cooldown Tracker claims -/

/-- Writing the cooldown dict always stores exactly the written value. -/
theorem cdGet_cdSet (cd : List (Str × Int)) (m : Str) (v : Int) :
    cdGet (cdSet cd m v) m = v := by
  simp [cdGet, cdSet, List.lookup]

/-- **C7** — marking a model rate-limited is a last-write-wins overwrite:
marking at `t` and then at `t + 1` (same duration) leaves
`cooldown_until = (t + 1) + Δ`, with no stacking, and the stored per-model
timestamp does not decrease across the two writes. -/
theorem mark_rate_limited_last_write_wins
    (cd : List (Str × Int)) (m : Str) (t dur : Int) :
    cdGet (markRateLimited (markRateLimited cd m t dur) m (t + 1) dur) m
        = (t + 1) + dur ∧
    cdGet (markRateLimited cd m t dur) m ≤
      cdGet (markRateLimited (markRateLimited cd m t dur) m (t + 1) dur) m := by
  constructor
  · exact cdGet_cdSet _ _ _
  · simp only [markRateLimited, cdGet_cdSet]
    omega

/-! ## Rate-limit classification (Generation Client) -/

/-- A string containing `pat` as a factor passes `strContains`. -/
theorem strContains_of_factor :
    ∀ (pre pat suf : Str), strContains (pre ++ pat ++ suf) pat = true := by
  intro pre
  induction pre with
  | nil =>
    intro pat suf
    rw [List.nil_append]
    cases hp : pat ++ suf with
    | nil =>
      obtain ⟨h1, h2⟩ := List.append_eq_nil.mp hp
      subst h1
      rfl
    | cons a t =>
      have hpre : pat.isPrefixOf (a :: t) = true := by
        rw [← hp]
        exact List.isPrefixOf_iff_prefix.mpr (List.prefix_append _ _)
      show (pat.isPrefixOf (a :: t) || strContains t pat) = true
      rw [hpre, Bool.true_or]
  | cons a pre ih =>
    intro pat suf
    show (pat.isPrefixOf (a :: (pre ++ pat ++ suf)) ||
      strContains (pre ++ pat ++ suf) pat) = true
    rw [ih pat suf, Bool.or_true]

/-- **C4 counterexample** — an HTTP 500 response whose body happens to contain
the digits `429` is classified as rate-limit by `generate`'s
`'429' in str(result.error)` test, although its status code is not 429. -/
theorem rate_limit_classification_counterexample :
    isRateLimitError
        (generateLocal "gemma3:27b".data
          (.response 500 "upstream saw 429".data [] none)).error = true ∧
    (500 : Nat) ≠ 429 := by
  constructor
  · decide
  · decide

/-- **C4 (amended)** — an attempt's outcome is classified as rate-limit iff
the string `429` occurs in its error message; in particular every HTTP 429
response is classified as rate-limit, but so is any other failure whose error
text contains `429` (see `rate_limit_classification_counterexample`). -/
theorem rate_limit_classification (st : Nat) (text payload : Str)
    (tk : Option Nat) (m : Str) (hst : 400 ≤ st) :
    (isRateLimitError (generateLocal m (.response st text payload tk)).error = true ↔
      strContains ("HTTP ".data ++ (Nat.repr st).data ++ ": ".data ++ text.take 200)
        "429".data = true) ∧
    (st = 429 →
      isRateLimitError (generateLocal m (.response st text payload tk)).error = true) := by
  have hok : ¬ st < 400 := by omega
  constructor
  · rw [generateLocal]
    rw [if_neg hok]
    exact Iff.rfl
  · intro h429
    subst h429
    rw [generateLocal]
    rw [if_neg hok]
    show strContains ("HTTP ".data ++ (Nat.repr 429).data ++ ": ".data ++ text.take 200)
      "429".data = true
    have hrepr : (Nat.repr 429).data = "429".data := by decide
    rw [hrepr]
    have hassoc : "HTTP ".data ++ "429".data ++ (": ".data ++ text.take 200) =
        "HTTP ".data ++ "429".data ++ ": ".data ++ text.take 200 := by
      simp [List.append_assoc]
    rw [← hassoc]
    exact strContains_of_factor "HTTP ".data "429".data (": ".data ++ text.take 200)

/-- Witness for `rate_limit_classification`: a plain HTTP 429 rejection is
classified as rate-limit. -/
theorem rate_limit_classification_witness :
    isRateLimitError
        (generateLocal "gemma3:27b".data
          (.response 429 "Too Many Requests".data [] none)).error = true :=
  (rate_limit_classification 429 "Too Many Requests".data [] none "gemma3:27b".data
    (by omega)).2 rfl

/-! ## Structural lemmas about the `generate` loops

Each loop only appends to the trace and to the error list; every appended
attempt names a model from the list the loop was given; a returned response is
always a success (failures never return early); and a failing pass with at
least one retry leaves at least one new error.  Within one retry loop, every
appended attempt except possibly the last is not rate-limit-classified (the
429 branch breaks). -/

/-- Relation used to say "every element with a successor is not a
rate-limited attempt". -/
def NotRLBefore (e : Event) (_ : Event) : Prop :=
  ∀ a, e = Event.att a → a.rateLimited = false

theorem retryLocal_props (env : Env) (c : Client) (url m : Str) :
    ∀ (k : Nat) (s : St),
      ∃ newT newE,
        (retryLocal env c url m k s).1.trace = s.trace ++ newT ∧
        (retryLocal env c url m k s).1.errs = s.errs ++ newE ∧
        (∀ e ∈ newT, ∃ a, e = Event.att a ∧ a.model = m ∧ a.source = "local".data) ∧
        (∀ r, (retryLocal env c url m k s).2 = some r → r.success = true) ∧
        ((retryLocal env c url m k s).2 = none → 1 ≤ k → newE ≠ []) ∧
        List.Chain' NotRLBefore newT := by
  intro k
  induction k with
  | zero =>
    intro s
    exact ⟨[], [], by simp [retryLocal], by simp [retryLocal],
      by simp, by simp [retryLocal], by omega, by simp⟩
  | succ k ih =>
    intro s
    rw [retryLocal]
    by_cases hsucc : (generateLocal m (env.localHttp s.ctr)).success = true
    · rw [if_pos hsucc]
      refine ⟨[Event.att ⟨"local".data, url, m, s.ctr, cdGet s.cd m,
        (generateLocal m (env.localHttp s.ctr)).success,
        !(generateLocal m (env.localHttp s.ctr)).success &&
          isRateLimitError (generateLocal m (env.localHttp s.ctr)).error⟩],
        [], rfl, by simp, ?_, ?_, ?_, ?_⟩
      · intro e he
        simp only [List.mem_singleton] at he
        exact ⟨_, he, rfl, rfl⟩
      · intro r hr
        injection hr with hr
        rw [← hr]
        exact hsucc
      · intro hnone
        exact absurd hnone (by simp)
      · exact List.chain'_singleton _
    · rw [if_neg hsucc]
      by_cases hrl : isRateLimitError (generateLocal m (env.localHttp s.ctr)).error = true
      · rw [if_pos hrl]
        refine ⟨[Event.att ⟨"local".data, url, m, s.ctr, cdGet s.cd m,
          (generateLocal m (env.localHttp s.ctr)).success,
          !(generateLocal m (env.localHttp s.ctr)).success &&
            isRateLimitError (generateLocal m (env.localHttp s.ctr)).error⟩],
          ["[".data ++ m ++ "@".data ++ urlTail url ++ "] ".data ++
            errToStr (generateLocal m (env.localHttp s.ctr)).error],
          rfl, rfl, ?_, ?_, ?_, ?_⟩
        · intro e he
          simp only [List.mem_singleton] at he
          exact ⟨_, he, rfl, rfl⟩
        · intro r hr
          exact absurd hr (by simp)
        · intro _ _
          simp
        · exact List.chain'_singleton _
      · rw [if_neg hrl]
        obtain ⟨newT, newE, h1, h2, h3, h4, h5, h6⟩ := ih
          { s with
            trace := s.trace ++ [Event.att ⟨"local".data, url, m, s.ctr, cdGet s.cd m,
              (generateLocal m (env.localHttp s.ctr)).success,
              !(generateLocal m (env.localHttp s.ctr)).success &&
                isRateLimitError (generateLocal m (env.localHttp s.ctr)).error⟩],
            ctr := s.ctr + 1,
            errs := s.errs ++ ["[".data ++ m ++ "@".data ++ urlTail url ++ "] ".data ++
              errToStr (generateLocal m (env.localHttp s.ctr)).error] }
        refine ⟨Event.att ⟨"local".data, url, m, s.ctr, cdGet s.cd m,
          (generateLocal m (env.localHttp s.ctr)).success,
          !(generateLocal m (env.localHttp s.ctr)).success &&
            isRateLimitError (generateLocal m (env.localHttp s.ctr)).error⟩ :: newT,
          ("[".data ++ m ++ "@".data ++ urlTail url ++ "] ".data ++
            errToStr (generateLocal m (env.localHttp s.ctr)).error) :: newE,
          ?_, ?_, ?_, h4, ?_, ?_⟩
        · rw [h1]
          simp
        · rw [h2]
          simp
        · intro e he
          rcases List.mem_cons.mp he with he | he
          · exact ⟨_, he, rfl, rfl⟩
          · exact h3 e he
        · intro _ _
          simp
        · refine List.chain'_cons'.mpr ⟨?_, h6⟩
          intro b _
          intro a ha
          injection ha with ha
          rw [← ha]
          simp only [Bool.not_eq_true] at hsucc
          simp only [Bool.not_eq_true] at hrl  
          simp [hsucc, hrl]

theorem modelsLoop_props (env : Env) (c : Client) (url : Str) (rc : Nat) :
    ∀ (ms : List Str) (s : St),
      ∃ newT newE,
        (modelsLoop env c url rc ms s).1.trace = s.trace ++ newT ∧
        (modelsLoop env c url rc ms s).1.errs = s.errs ++ newE ∧
        (∀ e ∈ newT, ∃ a, e = Event.att a ∧ a.model ∈ ms ∧ a.source = "local".data) ∧
        (∀ r, (modelsLoop env c url rc ms s).2 = some r → r.success = true) ∧
        ((modelsLoop env c url rc ms s).2 = none → ms ≠ [] → 1 ≤ rc → newE ≠ []) := by
  intro ms
  induction ms with
  | nil =>
    intro s
    exact ⟨[], [], by simp [modelsLoop], by simp [modelsLoop],
      by simp, by simp [modelsLoop], by simp⟩
  | cons m ms ih =>
    intro s
    obtain ⟨newT1, newE1, ht1, he1, hev1, hsome1, hgrow1, _⟩ :=
      retryLocal_props env c url m rc s
    rw [modelsLoop]
    rcases hr : retryLocal env c url m rc s with ⟨s', ropt⟩
    rw [hr] at ht1 he1 hsome1 hgrow1
    cases ropt with
    | some r =>
      refine ⟨newT1, newE1, ht1, he1, ?_, ?_, ?_⟩
      · intro e he
        obtain ⟨a, ha, ham, has⟩ := hev1 e he
        exact ⟨a, ha, by rw [ham]; exact List.mem_cons_self m ms, has⟩
      · intro r' hr'
        injection hr' with hr'
        exact hr' ▸ hsome1 r rfl
      · intro hnone
        exact absurd hnone (by simp)
    | none =>
      obtain ⟨newT2, newE2, ht2, he2, hev2, hsome2, hgrow2⟩ := ih s'
      refine ⟨newT1 ++ newT2, newE1 ++ newE2, ?_, ?_, ?_, hsome2, ?_⟩
      · rw [ht2, ht1, List.append_assoc]
      · rw [he2, he1, List.append_assoc]
      · intro e he
        rcases List.mem_append.mp he with he | he
        · obtain ⟨a, ha, ham, has⟩ := hev1 e he
          exact ⟨a, ha, ham ▸ List.mem_cons_self m ms, has⟩
        · obtain ⟨a, ha, ham, has⟩ := hev2 e he
          exact ⟨a, ha, List.mem_cons_of_mem _ ham, has⟩
      · intro _ _ hrc
        have : newE1 ≠ [] := hgrow1 rfl hrc
        intro hcontra
        exact this (List.append_eq_nil.mp hcontra).1

theorem cloudRetry_props (env : Env) (c : Client) :
    ∀ (k : Nat) (s : St),
      ∃ newT newE,
        (cloudRetry env c k s).1.trace = s.trace ++ newT ∧
        (cloudRetry env c k s).1.errs = s.errs ++ newE ∧
        (∀ e ∈ newT, ∃ a, e = Event.att a ∧ a.source = "cloud".data) ∧
        (∀ r, (cloudRetry env c k s).2 = some r → r.success = true) := by
  intro k
  induction k with
  | zero =>
    intro s
    exact ⟨[], [], by simp [cloudRetry], by simp [cloudRetry],
      by simp, by simp [cloudRetry]⟩
  | succ k ih =>
    intro s
    rw [cloudRetry]
    by_cases hsucc : (generateCloud c (env.cloudHttp s.ctr)).success = true
    · rw [if_pos hsucc]
      refine ⟨[Event.att ⟨"cloud".data, c.cloud_url, c.cloud_model, s.ctr,
        cdGet s.cd c.cloud_model, (generateCloud c (env.cloudHttp s.ctr)).success, false⟩],
        [], rfl, by simp, ?_, ?_⟩
      · intro e he
        simp only [List.mem_singleton] at he
        exact ⟨_, he, rfl⟩
      · intro r hrr
        injection hrr with hrr
        rw [← hrr]
        exact hsucc
    · rw [if_neg hsucc]
      obtain ⟨newT2, newE2, ht2, he2, hev2, hsome2⟩ := ih
        { s with
          trace := s.trace ++ [Event.att ⟨"cloud".data, c.cloud_url, c.cloud_model, s.ctr,
            cdGet s.cd c.cloud_model, (generateCloud c (env.cloudHttp s.ctr)).success, false⟩],
          ctr := s.ctr + 1,
          errs := s.errs ++ ["[cloud] ".data ++
            errToStr (generateCloud c (env.cloudHttp s.ctr)).error] }
      refine ⟨Event.att ⟨"cloud".data, c.cloud_url, c.cloud_model, s.ctr,
        cdGet s.cd c.cloud_model, (generateCloud c (env.cloudHttp s.ctr)).success, false⟩
          :: newT2,
        ("[cloud] ".data ++ errToStr (generateCloud c (env.cloudHttp s.ctr)).error)
          :: newE2, ?_, ?_, ?_, hsome2⟩
      · rw [ht2]
        simp
      · rw [he2]
        simp
      · intro e he
        rcases List.mem_cons.mp he with he | he
        · exact ⟨_, he, rfl⟩
        · exact hev2 e he

/-- What every event appended during the priority loop can be: a probe, a
local attempt against one of the filtered candidate models, or a cloud
attempt. -/
def TraceEventOK (avail : List Str) (e : Event) : Prop :=
  (∃ u ok, e = Event.probe u ok) ∨
  ∃ a, e = Event.att a ∧
    ((a.source = "local".data ∧ a.model ∈ avail) ∨ a.source = "cloud".data)

theorem urlsLoop_props (env : Env) (c : Client) (avail : List Str) (rc : Nat) :
    ∀ (urls : List Str) (s : St),
      ∃ newT newE,
        (urlsLoop env c avail rc urls s).1.trace = s.trace ++ newT ∧
        (urlsLoop env c avail rc urls s).1.errs = s.errs ++ newE ∧
        (∀ e ∈ newT, TraceEventOK avail e) ∧
        (∀ r, (urlsLoop env c avail rc urls s).2 = some r → r.success = true) ∧
        ((urlsLoop env c avail rc urls s).2 = none → urls ≠ [] → avail ≠ [] →
          1 ≤ rc → newE ≠ []) := by
  intro urls
  induction urls with
  | nil =>
    intro s
    exact ⟨[], [], by simp [urlsLoop], by simp [urlsLoop],
      by simp, by simp [urlsLoop], by simp⟩
  | cons u us ih =>
    intro s
    rw [urlsLoop]
    by_cases hok : env.testConn u = true
    · rw [if_pos hok]
      obtain ⟨newT1, newE1, ht1, he1, hev1, hsome1, hgrow1⟩ :=
        modelsLoop_props env c u rc avail
          { s with trace := s.trace ++ [Event.probe u (env.testConn u)] }
      rcases hm : modelsLoop env c u rc avail
          { s with trace := s.trace ++ [Event.probe u (env.testConn u)] } with ⟨s', ropt⟩
      rw [hm] at ht1 he1 hsome1 hgrow1
      simp only at ht1 he1
      cases ropt with
      | some r =>
        refine ⟨Event.probe u (env.testConn u) :: newT1, newE1, ?_, he1, ?_, ?_, ?_⟩
        · rw [ht1]
          simp
        · intro e he
          rcases List.mem_cons.mp he with he | he
          · exact Or.inl ⟨u, env.testConn u, he⟩
          · obtain ⟨a, ha, ham, has⟩ := hev1 e he
            exact Or.inr ⟨a, ha, Or.inl ⟨has, ham⟩⟩
        · intro r' hr'
          injection hr' with hr'
          exact hr' ▸ hsome1 r rfl
        · intro hnone
          exact absurd hnone (by simp)
      | none =>
        obtain ⟨newT2, newE2, ht2, he2, hev2, hsome2, hgrow2⟩ := ih s'
        refine ⟨Event.probe u (env.testConn u) :: (newT1 ++ newT2), newE1 ++ newE2,
          ?_, ?_, ?_, hsome2, ?_⟩
        · rw [ht2, ht1]
          simp
        · rw [he2, he1, List.append_assoc]
        · intro e he
          rcases List.mem_cons.mp he with he | he
          · exact Or.inl ⟨u, env.testConn u, he⟩
          · rcases List.mem_append.mp he with he | he
            · obtain ⟨a, ha, ham, has⟩ := hev1 e he
              exact Or.inr ⟨a, ha, Or.inl ⟨has, ham⟩⟩
            · exact hev2 e he
        · intro _ _ hav hrc
          have : newE1 ≠ [] := hgrow1 rfl hav hrc
          intro hcontra
          exact this (List.append_eq_nil.mp hcontra).1
    · rw [if_neg hok]
      obtain ⟨newT2, newE2, ht2, he2, hev2, hsome2, hgrow2⟩ :=
        ih ⟨s.cd, s.errs ++ ["[local:".data ++ u ++ "] 無法連接".data],
          s.trace ++ [Event.probe u (env.testConn u)], s.ctr⟩
      refine ⟨Event.probe u (env.testConn u) :: newT2,
        ("[local:".data ++ u ++ "] 無法連接".data) :: newE2, ?_, ?_, ?_, hsome2, ?_⟩
      · exact Eq.trans ht2 (by simp)
      · exact Eq.trans he2 (by simp)
      · intro e he
        rcases List.mem_cons.mp he with he | he
        · exact Or.inl ⟨u, env.testConn u, he⟩
        · exact hev2 e he
      · intro _ _ _ _
        simp

theorem sourcesLoop_props (env : Env) (c : Client) (avail : List Str) (rc : Nat) :
    ∀ (srcs : List Str) (s : St),
      ∃ newT newE,
        (sourcesLoop env c avail rc srcs s).1.trace = s.trace ++ newT ∧
        (sourcesLoop env c avail rc srcs s).1.errs = s.errs ++ newE ∧
        (∀ e ∈ newT, TraceEventOK avail e) ∧
        (∀ r, (sourcesLoop env c avail rc srcs s).2 = some r → r.success = true) ∧
        ((sourcesLoop env c avail rc srcs s).2 = none → "local".data ∈ srcs →
          avail ≠ [] → 1 ≤ rc → newE ≠ []) := by
  intro srcs
  induction srcs with
  | nil =>
    intro s
    exact ⟨[], [], by simp [sourcesLoop], by simp [sourcesLoop],
      by simp, by simp [sourcesLoop], by simp⟩
  | cons src rest ih =>
    intro s
    rw [sourcesLoop]
    by_cases hloc : src = "local".data
    · rw [if_pos hloc]
      obtain ⟨newT1, newE1, ht1, he1, hev1, hsome1, hgrow1⟩ :=
        urlsLoop_props env c avail rc [c.local_primary_url, c.local_fallback_url] s
      rcases hu : urlsLoop env c avail rc [c.local_primary_url, c.local_fallback_url] s
        with ⟨s', ropt⟩
      rw [hu] at ht1 he1 hsome1 hgrow1
      cases ropt with
      | some r =>
        refine ⟨newT1, newE1, ht1, he1, hev1, ?_, ?_⟩
        · intro r' hr'
          injection hr' with hr'
          exact hr' ▸ hsome1 r rfl
        · intro hnone
          exact absurd hnone (by simp)
      | none =>
        obtain ⟨newT2, newE2, ht2, he2, hev2, hsome2, hgrow2⟩ := ih s'
        refine ⟨newT1 ++ newT2, newE1 ++ newE2, ?_, ?_, ?_, hsome2, ?_⟩
        · rw [ht2, ht1, List.append_assoc]
        · rw [he2, he1, List.append_assoc]
        · intro e he
          rcases List.mem_append.mp he with he | he
          · exact hev1 e he
          · exact hev2 e he
        · intro _ _ hav hrc
          have : newE1 ≠ [] := hgrow1 rfl (by simp) hav hrc
          intro hcontra
          exact this (List.append_eq_nil.mp hcontra).1
    · rw [if_neg hloc]
      by_cases hcl : src = "cloud".data ∧ c.cloud_enabled = true
      · rw [if_pos hcl]
        obtain ⟨newT1, newE1, ht1, he1, hev1, hsome1⟩ := cloudRetry_props env c rc s
        rcases hc : cloudRetry env c rc s with ⟨s', ropt⟩
        rw [hc] at ht1 he1 hsome1
        cases ropt with
        | some r =>
          refine ⟨newT1, newE1, ht1, he1, ?_, ?_, ?_⟩
          · intro e he
            obtain ⟨a, ha, has⟩ := hev1 e he
            exact Or.inr ⟨a, ha, Or.inr has⟩
          · intro r' hr'
            injection hr' with hr'
            exact hr' ▸ hsome1 r rfl
          · intro hnone
            exact absurd hnone (by simp)
        | none =>
          obtain ⟨newT2, newE2, ht2, he2, hev2, hsome2, hgrow2⟩ := ih s'
          refine ⟨newT1 ++ newT2, newE1 ++ newE2, ?_, ?_, ?_, hsome2, ?_⟩
          · rw [ht2, ht1, List.append_assoc]
          · rw [he2, he1, List.append_assoc]
          · intro e he
            rcases List.mem_append.mp he with he | he
            · obtain ⟨a, ha, has⟩ := hev1 e he
              exact Or.inr ⟨a, ha, Or.inr has⟩
            · exact hev2 e he
          · intro hnone hmem hav hrc
            have hmem' : "local".data ∈ rest := by
              rcases List.mem_cons.mp hmem with h | h
              · exact absurd h.symm hloc
              · exact h
            have : newE2 ≠ [] := hgrow2 hnone hmem' hav hrc
            intro hcontra
            exact this (List.append_eq_nil.mp hcontra).2
      · rw [if_neg hcl]
        obtain ⟨newT2, newE2, ht2, he2, hev2, hsome2, hgrow2⟩ := ih s
        refine ⟨newT2, newE2, ht2, he2, hev2, hsome2, ?_⟩
        intro hnone hmem hav hrc
        have hmem' : "local".data ∈ rest := by
          rcases List.mem_cons.mp hmem with h | h
          · exact absurd h.symm hloc
          · exact h
        exact hgrow2 hnone hmem' hav hrc

/-- Master characterization of one `generate` call: what the reset flag is,
how the candidate set and post-filter cooldown state depend on it, what kinds
of events the trace holds, and the shape of the aggregated failure when no
attempt succeeded. -/
theorem generateRun_spec (c : Client) (env : Env) (modelArg : Option Str) (rc : Nat) :
    ∃ reset : Bool,
      reset = (((modelsToTry c modelArg).filter
          (fun m => decide (cdGet c.model_cooldown m ≤ env.now0))).isEmpty &&
          !(modelsToTry c modelArg).isEmpty) ∧
      (generateRun c env modelArg rc).resetCount = (if reset then 1 else 0) ∧
      (generateRun c env modelArg rc).availableModels =
        (if reset then modelsToTry c modelArg
         else (modelsToTry c modelArg).filter
          (fun m => decide (cdGet c.model_cooldown m ≤ env.now0))) ∧
      (generateRun c env modelArg rc).cooldownAfterFilter =
        (if reset then [] else c.model_cooldown) ∧
      (∀ e ∈ (generateRun c env modelArg rc).trace,
        TraceEventOK (generateRun c env modelArg rc).availableModels e) ∧
      ((generateRun c env modelArg rc).response.success = false →
        (generateRun c env modelArg rc).response.error =
          some ("所有服務都無法使用：".data ++
            joinSep "; ".data (lastN 5 (generateRun c env modelArg rc).errors)) ∧
        ("local".data ∈ c.priority →
          (generateRun c env modelArg rc).availableModels ≠ [] → 1 ≤ rc →
          (generateRun c env modelArg rc).errors ≠ [])) := by
  simp only [generateRun]
  set mtt := modelsToTry c modelArg with hmtt
  set filt := mtt.filter (fun m => decide (cdGet c.model_cooldown m ≤ env.now0)) with hfilt
  set rst := filt.isEmpty && !mtt.isEmpty with hrst
  set cd1 : List (Str × Int) := if rst then [] else c.model_cooldown with hcd1
  set av1 : List Str := if rst then mtt else filt with hav1
  obtain ⟨newT, newE, ht, he, hev, hsome, hgrow⟩ :=
    sourcesLoop_props env c av1 rc c.priority ⟨cd1, [], [], 0⟩
  rcases hs : sourcesLoop env c av1 rc c.priority ⟨cd1, [], [], 0⟩ with ⟨s', ropt⟩
  rw [hs] at ht he hsome hgrow
  simp only at ht he
  refine ⟨rst, rfl, ?_⟩
  cases ropt with
  | some r =>
    refine ⟨rfl, rfl, rfl, ?_, ?_⟩
    · intro e he'
      simp only at he'
      rw [ht] at he'
      simp only [List.nil_append] at he'
      exact hev e he'
    · intro hfl
      exact absurd (hsome r rfl) (by simp [hfl] at hfl ⊢; exact hfl)
  | none =>
    refine ⟨rfl, rfl, rfl, ?_, ?_⟩
    · intro e he'
      simp only at he'
      rw [ht] at he'
      simp only [List.nil_append] at he'
      exact hev e he'
    · intro _
      refine ⟨rfl, ?_⟩
      intro hloc hav hrc
      simp only
      rw [he]
      simp only [List.nil_append]
      exact hgrow rfl hloc hav hrc

/-! ## Failover Orchestrator claims -/

/-- Concrete client for the cooldown-violation scenario: one local model `A`,
two distinct endpoints, local-only priority. -/
def cexClientC1 : Client :=
  { local_primary_url := "http://u1:11434".data
    local_fallback_url := "http://u2:11434".data
    local_models := ["A".data]
    model_cooldown := []
    cooldown_duration := 7200
    cloud_enabled := false
    cloud_url := []
    cloud_model := []
    cloud_api_key := []
    priority := ["local".data] }

/-- Environment where both endpoints are reachable, every local attempt is
rejected with a plain HTTP 429, and the clock advances by one per attempt. -/
def cexEnvC1 : Env :=
  { now0 := 0
    tick := fun k => (k : Int)
    testConn := fun _ => true
    localHttp := fun _ => .response 429 "too many requests".data [] none
    cloudHttp := fun _ => .timeout }

/-- The property claimed by the spec, as a check over a run's trace: every
attempt is against a model whose tracked cooldown timestamp is not in the
future at the attempt's clock reading. -/
def cooldownRespected (env : Env) (r : RunResult) : Bool :=
  r.trace.all fun e =>
    match e with
    | .probe _ _ => true
    | .att a => decide (a.cdAtIssue ≤ env.tick a.idx)

/-- **C1 counterexample** — with model `A` rate-limited (429) at the primary
endpoint, `generate` attempts `A` again at the fallback endpoint in the same
call while `A`'s cooldown timestamp (7200) lies far in the future of the
attempt time (1), and the reset path never triggered: the candidate filter
runs once per call, before the endpoint loop. -/
theorem cooldown_violated_same_call :
    (generateRun cexClientC1 cexEnvC1 none 1).resetCount = 0 ∧
    cooldownRespected cexEnvC1 (generateRun cexClientC1 cexEnvC1 none 1) = false ∧
    Event.att ⟨"local".data, "http://u2:11434".data, "A".data, 1, 7200, false, true⟩ ∈
      (generateRun cexClientC1 cexEnvC1 none 1).trace := by
  refine ⟨by decide, by decide, by decide⟩

/-- **C1 (amended)** — unless the reset path triggered, every local generation
attempt in a `generate` call is against a model whose cooldown timestamp *as
recorded at the start of the call* was not in the future of the call-start
time; and within one (endpoint, model) retry loop a rate-limit-classified
attempt is always the last one (the 429 branch breaks), though the same model
may be attempted again at a later endpoint of the same call. -/
theorem generate_respects_call_start_cooldowns (c : Client) (env : Env)
    (modelArg : Option Str) (rc : Nat)
    (hreset : (generateRun c env modelArg rc).resetCount = 0) :
    (∀ a, Event.att a ∈ (generateRun c env modelArg rc).trace →
        a.source = "local".data → cdGet c.model_cooldown a.model ≤ env.now0) ∧
    (∀ (url m : Str) (k : Nat) (s : St),
        List.Chain' NotRLBefore
          ((retryLocal env c url m k s).1.trace.drop s.trace.length)) := by
  obtain ⟨reset, hdef, hrcnt, hav, hcd, hev, hfl⟩ := generateRun_spec c env modelArg rc
  constructor
  · intro a hmem hsrc
    have hreset_false : reset = false := by
      cases hres : reset
      · rfl
      · rw [hres] at hrcnt
        rw [hreset] at hrcnt
        simp at hrcnt
    rw [hreset_false] at hav
    simp only [Bool.false_eq_true, if_false] at hav
    rcases hev _ hmem with ⟨u, ok, habs⟩ | ⟨a', ha', hcase⟩
    · exact Event.noConfusion habs
    · injection ha' with ha'
      subst ha'
      rcases hcase with ⟨_, hmem'⟩ | hcloud
      · rw [hav] at hmem'
        exact of_decide_eq_true (List.mem_filter.mp hmem').2
      · rw [hsrc] at hcloud
        exact absurd hcloud (by decide)
  · intro url m k s
    obtain ⟨newT, newE, ht, _, _, _, _, hchain⟩ := retryLocal_props env c url m k s
    rw [ht, List.drop_left]
    exact hchain

/-- Client for the witness run: one model, empty cooldown map. -/
def witClientC1 : Client :=
  { local_primary_url := "http://u1:11434".data
    local_fallback_url := "http://u1:11434".data
    local_models := ["A".data]
    model_cooldown := []
    cooldown_duration := 7200
    cloud_enabled := false
    cloud_url := []
    cloud_model := []
    cloud_api_key := []
    priority := ["local".data] }

/-- Environment where the first attempt succeeds. -/
def witEnvC1 : Env :=
  { now0 := 0
    tick := fun _ => 0
    testConn := fun _ => true
    localHttp := fun _ => .response 200 [] "ok".data none
    cloudHttp := fun _ => .timeout }

/-- Witness for `generate_respects_call_start_cooldowns`: in a reset-free run,
the successful attempt's model indeed passed the call-start filter. -/
theorem generate_respects_call_start_cooldowns_witness :
    cdGet witClientC1.model_cooldown "A".data ≤ witEnvC1.now0 :=
  (generate_respects_call_start_cooldowns witClientC1 witEnvC1 none 1 (by decide)).1
    ⟨"local".data, "http://u1:11434".data, "A".data, 0, 0, true, false⟩ (by decide) rfl

/-- **C8** — if every candidate model is cooling at the start of the call, the
whole cooldown map is cleared (reset runs exactly once) and the call proceeds
with the full, unfiltered candidate list. -/
theorem generate_resets_when_all_cooled (c : Client) (env : Env)
    (modelArg : Option Str) (rc : Nat)
    (hne : modelsToTry c modelArg ≠ [])
    (hall : ∀ m ∈ modelsToTry c modelArg, env.now0 < cdGet c.model_cooldown m) :
    (generateRun c env modelArg rc).resetCount = 1 ∧
    (generateRun c env modelArg rc).cooldownAfterFilter = [] ∧
    (generateRun c env modelArg rc).availableModels = modelsToTry c modelArg := by
  obtain ⟨reset, hdef, hrcnt, hav, hcd, _, _⟩ := generateRun_spec c env modelArg rc
  have hfilt : (modelsToTry c modelArg).filter
      (fun m => decide (cdGet c.model_cooldown m ≤ env.now0)) = [] := by
    apply List.filter_eq_nil.mpr
    intro m hm
    simp only [decide_eq_true_eq]
    exact not_le.mpr (hall m hm)
  have hreset_true : reset = true := by
    rw [hdef, hfilt]
    cases hm : modelsToTry c modelArg with
    | nil => exact absurd hm hne
    | cons x xs => rfl
  rw [hreset_true] at hrcnt hav hcd
  simp only [if_true] at hrcnt hav hcd
  exact ⟨hrcnt, hcd, hav⟩

/-- Client whose only candidate model is cooling until timestamp 100. -/
def witClientC8 : Client :=
  { local_primary_url := "http://u1:11434".data
    local_fallback_url := "http://u1:11434".data
    local_models := ["A".data]
    model_cooldown := [("A".data, 100)]
    cooldown_duration := 7200
    cloud_enabled := false
    cloud_url := []
    cloud_model := []
    cloud_api_key := []
    priority := ["local".data] }

/-- Witness for `generate_resets_when_all_cooled` at a concrete all-cooling
client: the reset runs exactly once. -/
theorem generate_resets_when_all_cooled_witness :
    (generateRun witClientC8 witEnvC1 none 1).resetCount = 1 ∧
    (generateRun witClientC8 witEnvC1 none 1).cooldownAfterFilter = [] :=
  ⟨(generate_resets_when_all_cooled witClientC8 witEnvC1 none 1 (by decide)
      (by decide)).1,
   (generate_resets_when_all_cooled witClientC8 witEnvC1 none 1 (by decide)
      (by decide)).2.1⟩

/-- **C6** — when no attempt succeeds anywhere, the single returned failure's
reason is the fixed prefix followed by `'; '.join(errors[-5:])`: it aggregates
at least one and at most five of the most recent per-attempt error excerpts. -/
theorem generate_failure_error_bounded (c : Client) (env : Env)
    (modelArg : Option Str) (rc : Nat)
    (hrc : 1 ≤ rc) (hloc : "local".data ∈ c.priority)
    (hmtt : modelsToTry c modelArg ≠ [])
    (hfail : (generateRun c env modelArg rc).response.success = false) :
    (generateRun c env modelArg rc).response.error =
      some ("所有服務都無法使用：".data ++
        joinSep "; ".data (lastN 5 (generateRun c env modelArg rc).errors)) ∧
    1 ≤ (lastN 5 (generateRun c env modelArg rc).errors).length ∧
    (lastN 5 (generateRun c env modelArg rc).errors).length ≤ 5 := by
  obtain ⟨reset, hdef, hrcnt, hav, hcd, hev, hflimp⟩ := generateRun_spec c env modelArg rc
  obtain ⟨herr, hgrow⟩ := hflimp hfail
  have havne : (generateRun c env modelArg rc).availableModels ≠ [] := by
    rw [hav]
    cases hres : reset
    · simp only [Bool.false_eq_true, if_false]
      intro hfe
      rw [hres] at hdef
      rw [hfe] at hdef
      cases hm : modelsToTry c modelArg with
      | nil => exact hmtt hm
      | cons x xs =>
        rw [hm] at hdef
        simp at hdef
    · simp only [if_true]
      exact hmtt
  have herrsne : (generateRun c env modelArg rc).errors ≠ [] := hgrow hloc havne hrc
  have hlen : 1 ≤ (generateRun c env modelArg rc).errors.length := by
    cases herrs : (generateRun c env modelArg rc).errors with
    | nil => exact absurd herrs herrsne
    | cons x xs => simp
  refine ⟨herr, ?_, ?_⟩
  · simp only [lastN, List.length_drop]
    omega
  · simp only [lastN, List.length_drop]
    omega

/-- Witness for `generate_failure_error_bounded`: the all-429 run aggregates
between one and five excerpts. -/
theorem generate_failure_error_bounded_witness :
    1 ≤ (lastN 5 (generateRun cexClientC1 cexEnvC1 none 1).errors).length ∧
    (lastN 5 (generateRun cexClientC1 cexEnvC1 none 1).errors).length ≤ 5 :=
  ⟨(generate_failure_error_bounded cexClientC1 cexEnvC1 none 1 (by decide)
      (by decide) (by decide) (by decide)).2.1,
   (generate_failure_error_bounded cexClientC1 cexEnvC1 none 1 (by decide)
      (by decide) (by decide) (by decide)).2.2⟩

/-! ## Backend Registry defaults (absent configuration) -/

/-- The constructor argument when no backend configuration is supplied. -/
def emptyConfig : Config := {}

/-- Environment in which no endpoint is reachable. -/
def envOffline : Env :=
  { now0 := 0
    tick := fun _ => 0
    testConn := fun _ => false
    localHttp := fun _ => .timeout
    cloudHttp := fun _ => .timeout }

/-- **C10 counterexample** — with no configuration the registry is *not* empty
(it defaults to model `gemma3:27b`) and `generate` *does* probe the default
localhost endpoint instead of failing fast with a "no backends configured"
reason. -/
theorem no_config_not_inert_counterexample :
    (mkClient emptyConfig).local_models ≠ [] ∧
    Event.probe "http://localhost:11434".data false ∈
      (generateRun (mkClient emptyConfig) envOffline none 2).trace := by
  refine ⟨by decide, by decide⟩

/-- **C10 (amended)** — with no configuration the client falls back to the
default localhost endpoint (twice: primary and fallback), default model
`gemma3:27b`, cloud disabled, priority `[local, cloud]`; a `generate` call
probes the default endpoint for both slots, issues no generation attempt when
they are unreachable, and returns a failure aggregating the two connection
errors (not a "no backends configured" message). -/
theorem no_config_default_probe_behavior :
    (mkClient emptyConfig).local_models = ["gemma3:27b".data] ∧
    (mkClient emptyConfig).cloud_enabled = false ∧
    (mkClient emptyConfig).priority = ["local".data, "cloud".data] ∧
    (generateRun (mkClient emptyConfig) envOffline none 2).response.success = false ∧
    (generateRun (mkClient emptyConfig) envOffline none 2).response.error =
      some ("所有服務都無法使用：".data ++ joinSep "; ".data
        ["[local:http://localhost:11434] 無法連接".data,
         "[local:http://localhost:11434] 無法連接".data]) ∧
    (generateRun (mkClient emptyConfig) envOffline none 2).trace =
      [Event.probe "http://localhost:11434".data false,
       Event.probe "http://localhost:11434".data false] := by
  refine ⟨by decide, by decide, by decide, by decide, by decide, by decide⟩

/-! ## Chunk Processor and Reassembly Pass -/

/-- `Summarizer.polish_transcript_chunked` (summarizer.py lines 222-298), with
the Failover Orchestrator abstracted by an oracle `gen`: `gen i` is the
content produced by the `i`-th `self.ollama.generate` call of this run (the
chunk calls in span order, then the final formatting call at index `N`), or
`none` when that call fails.  The chunk texts are the spans' slices of the
transcript (`transcript[start:end]`); a failed chunk call falls back to the
original chunk text (`polished_chunks.append(chunk)`); chunks are merged with
`"\n\n"` separators; if the final formatting call fails, the merged text is
returned as a *success*.  (On the success path only the generated content is
tracked; the chunking loop's fuel is explicit, `none` meaning the loop did
not terminate within it.) -/
def polishChunked (gen : Nat → Option Str) (transcript : Str)
    (csize ov : Int) (fuel : Nat) : Option LLMResponse :=
  match splitGo csize ov (transcript.length : Int) fuel 0 with
  | none => none
  | some spans =>
    let chunks := spans.map (extractSpan transcript)
    let polished := chunks.enum.map (fun p => ((gen p.1).getD p.2))
    let merged := joinSep "\n\n".data polished
    match gen chunks.length with
    | some content => some { success := true, content := some content }
    | none => some { success := true, content := some merged }

/-- When the oracle fails every call, each chunk falls back to its own text. -/
theorem enumFrom_map_oracle_fail {α : Type} (f : Nat → Option α)
    (hf : ∀ i, f i = none) :
    ∀ (l : List α) (k : Nat),
      (l.enumFrom k).map (fun p => ((f p.1).getD p.2)) = l := by
  intro l
  induction l with
  | nil => intro k; rfl
  | cons a t ih =>
    intro k
    show ((f k).getD a) :: (t.enumFrom (k + 1)).map (fun p => ((f p.1).getD p.2)) = a :: t
    rw [hf k, Option.getD_none, ih (k + 1)]

/-- Every part of a separator-join occurs verbatim inside the join. -/
theorem mem_joinSep_infix (sep : Str) :
    ∀ (parts : List Str) (x : Str), x ∈ parts → x <:+: joinSep sep parts := by
  intro parts
  induction parts with
  | nil => intro x hx; exact absurd hx (List.not_mem_nil x)
  | cons a t ih =>
    intro x hx
    cases t with
    | nil =>
      rcases List.mem_cons.mp hx with hx | hx
      · subst hx
        exact List.infix_refl _
      · exact absurd hx (List.not_mem_nil x)
    | cons b t' =>
      rcases List.mem_cons.mp hx with hx | hx
      · subst hx
        show x <:+: x ++ sep ++ joinSep sep (b :: t')
        have h := List.prefix_append x (sep ++ joinSep sep (b :: t'))
        rw [← List.append_assoc] at h
        exact h.isInfix
      · have h1 : x <:+: joinSep sep (b :: t') := ih x hx
        show x <:+: a ++ sep ++ joinSep sep (b :: t')
        exact h1.trans (List.suffix_append (a ++ sep) (joinSep sep (b :: t'))).isInfix

/-- **C5** — if the orchestrator fails on every chunk and the final
reassembly call also fails, the chunked polish still returns a *success*
whose content is exactly the original chunk texts, in span order, joined by
the paragraph-break separator — so every chunk's text occurs verbatim in the
output. -/
theorem chunked_polish_never_drops (gen : Nat → Option Str) (transcript : Str)
    (csize ov : Int) (fuel : Nat) (spans : List (Int × Int))
    (hsplit : splitGo csize ov (transcript.length : Int) fuel 0 = some spans)
    (hfail : ∀ i, gen i = none) :
    polishChunked gen transcript csize ov fuel =
      some { success := true,
             content := some (joinSep "\n\n".data (spans.map (extractSpan transcript))) } ∧
    ∀ chunk ∈ spans.map (extractSpan transcript),
      chunk <:+: joinSep "\n\n".data (spans.map (extractSpan transcript)) := by
  constructor
  · unfold polishChunked
    rw [hsplit]
    show (match gen (spans.map (extractSpan transcript)).length with
      | some content => some { success := true, content := some content }
      | none => some ({ success := true, content := some (joinSep "\n\n".data
          (((spans.map (extractSpan transcript)).enum).map
            (fun p => ((gen p.1).getD p.2)))) } : LLMResponse)) =
      some { success := true,
             content := some (joinSep "\n\n".data (spans.map (extractSpan transcript))) }
    rw [hfail]
    rw [show (spans.map (extractSpan transcript)).enum =
      (spans.map (extractSpan transcript)).enumFrom 0 from rfl]
    rw [enumFrom_map_oracle_fail gen hfail]
  · intro chunk hc
    exact mem_joinSep_infix _ _ _ hc

/-- Witness for `chunked_polish_never_drops`: an 11-character document split
with `chunk_size = 6`, `overlap = 2` into three chunks, every call failing. -/
theorem chunked_polish_never_drops_witness :
    polishChunked (fun _ => none) "abcdefghijk".data 6 2 4 =
      some { success := true, content := some (joinSep "\n\n".data
        (([((0 : Int), (6 : Int)), (4, 10), (8, 11)]).map
          (extractSpan "abcdefghijk".data))) } :=
  (chunked_polish_never_drops (fun _ => none) "abcdefghijk".data 6 2 4
    [(0, 6), (4, 10), (8, 11)] (by decide) (fun _ => rfl)).1
